import Mathlib

set_option maxRecDepth 4000

/-!
Verification of the flat-file record store implemented in
backend/app/database/csv_handler.py.  The store keeps one pandas
DataFrame per table on disk; this file shallowly embeds the DataFrame a
table holds as a Frame (header plus rows of scalar cells) and each CRUD
operation as a pure function on an Option Frame (none models a table
whose file does not exist).  Pandas column-level dtype unification when
a typed column later acquires a null is below this abstraction; the
cell-level semantics each claim observes is modelled exactly, including
the astype(str) coercions the source applies before id and condition
comparisons.
-/

/-- Scalar cell value of a table cell: null (NaN), boolean, integer,
decimal float (mantissa and count of decimal digits) or string. -/
inductive Value where
  | VNull : Value
  | VBool : Bool → Value
  | VInt : Int → Value
  | VFloat : Int → Nat → Value
  | VStr : String → Value
deriving DecidableEq, Repr

open Value

/-- Decimal rendering of a float, as Python prints floats read from CSV
text: integral floats carry a trailing .0, and d decimal digits are kept
after the point. -/
def floatRepr (m : Int) (d : Nat) : String :=
  let sign := if m < 0 then "-" else ""
  let ds := toString m.natAbs
  if d = 0 then sign ++ ds ++ ".0"
  else
    let padded := List.replicate (d + 1 - ds.length) '0' ++ ds.toList
    sign ++ String.mk (padded.take (padded.length - d)) ++ "." ++
      String.mk (padded.drop (padded.length - d))

/-- String form pandas astype(str) gives each cell: NaN renders as nan,
booleans capitalized. -/
def astypeStr : Value → String
  | VNull => "nan"
  | VBool true => "True"
  | VBool false => "False"
  | VInt n => toString n
  | VFloat m d => floatRepr m d
  | VStr s => s

/-- String form Python str gives a caller-supplied scalar: None renders
as None, every other scalar as astype(str) renders it. -/
def pyStr : Value → String
  | VNull => "None"
  | v => astypeStr v

/-- Digit run of Python int(), single underscores allowed between
digits; acc is the value of digits consumed so far. -/
def pyDigitsAux : List Char → Nat → Option Nat
  | [], acc => some acc
  | '_' :: c :: rest, acc =>
      if c.isDigit then pyDigitsAux rest (acc * 10 + (c.toNat - 48)) else none
  | ['_'], _ => none
  | c :: rest, acc =>
      if c.isDigit then pyDigitsAux rest (acc * 10 + (c.toNat - 48)) else none

/-- Python int(s) on a string: optional surrounding ASCII whitespace, an
optional sign, then digits with single underscores allowed between
digits; none when the text is not an integer literal. -/
def pyIntParse (s : String) : Option Int :=
  let ws : Char → Bool := fun c => c = ' ' || c = '\t' || c = '\n' || c = '\r'
  let cs := ((s.toList.dropWhile ws).reverse.dropWhile ws).reverse
  match cs with
  | '-' :: c :: rest =>
      if c.isDigit then (pyDigitsAux rest (c.toNat - 48)).map (fun n => -(n : Int)) else none
  | '+' :: c :: rest =>
      if c.isDigit then (pyDigitsAux rest (c.toNat - 48)).map (fun n => (n : Int)) else none
  | c :: rest =>
      if c.isDigit then (pyDigitsAux rest (c.toNat - 48)).map (fun n => (n : Int)) else none
  | [] => none

/-- Python format spec 03d: zero-pad to overall width 3, the sign
counted inside the width. -/
def format03d (n : Int) : String :=
  let sign := if n < 0 then "-" else ""
  let ds := toString n.natAbs
  sign ++ String.mk (List.replicate (3 - (sign.length + ds.length)) '0') ++ ds

/-- Python int() applied to a scalar cell: booleans count as 0 or 1,
floats truncate toward zero, strings go through the string parse, and a
bare null has no integer form. -/
def pyIntOfValue : Value → Option Int
  | VNull => none
  | VBool true => some 1
  | VBool false => some 0
  | VInt n => some n
  | VFloat m d => some (Int.tdiv m ((10 : Int) ^ d))
  | VStr s => pyIntParse s

/-- In-memory image of one table file: the header (column names in
order) and the rows (cells in column order). -/
structure Frame where
  cols : List String
  rows : List (List Value)
deriving DecidableEq, Repr

/-- Store state of one table: none when the table file does not exist. -/
abbrev State := Option Frame

/-- Record passed to and returned from the store: ordered column-value
pairs, the shape of a Python dict at this boundary. -/
abbrev Rcd := List (String × Value)

/-- Index of the first column with the given name. -/
def colIdx (cols : List String) (c : String) : Option Nat :=
  match cols with
  | [] => none
  | c0 :: cs => if c0 = c then some 0 else (colIdx cs c).map (· + 1)

/-- Apply g to the cell at column index j, identity when the row is
shorter than j. -/
def setAtMap : Nat → (Value → Value) → List Value → List Value
  | _, _, [] => []
  | 0, g, v :: vs => g v :: vs
  | Nat.succ j0, g, v :: vs => v :: setAtMap j0 g vs

/-- Effect of astype(str) on one column of one row. -/
def stringifyAt (j : Nat) (r : List Value) : List Value :=
  setAtMap j (fun v => VStr (astypeStr v)) r

/-- Overwrite the cell at column index j. -/
def setCell (j : Nat) (val : Value) (r : List Value) : List Value :=
  setAtMap j (fun _ => val) r

/-- Row extended on the right with nulls up to n cells, as pandas aligns
a row against a widened header. -/
def padRow (r : List Value) (n : Nat) : List Value :=
  r ++ List.replicate (n - r.length) VNull

/-- Record of one row as to_dict gives it: every column of the header
appears, a missing trailing cell surfacing as an explicit null. -/
def rowRecord (cols : List String) (r : List Value) : Rcd :=
  match cols, r with
  | [], _ => []
  | c :: cs, [] => (c, VNull) :: rowRecord cs []
  | c :: cs, v :: vs => (c, v) :: rowRecord cs vs

/-- Cell of a row under a column name, none when the column is absent
from the header. -/
def lookupCell (cols : List String) (r : List Value) (c : String) : Option Value :=
  (colIdx cols c).map (fun j => r.getD j VNull)

/-- Row matches an id probe: the id column cell as astype(str) renders
it equals str of the probe value; false when the id column is absent. -/
def rowMatches (cols : List String) (idc : String) (idv : Value) (r : List Value) : Bool :=
  match colIdx cols idc with
  | none => false
  | some j => astypeStr (r.getD j VNull) == pyStr idv

/-- Keys of a record not yet columns of the header, in first-occurrence
order, as pd.concat appends unseen columns after the existing ones. -/
def newKeys (cols : List String) (keys : List String) : List String :=
  keys.foldl (fun acc k => if cols.contains k || acc.contains k then acc else acc ++ [k]) []

/-- Python dict lookup on an association list: the last binding of a key
wins. -/
def dictGet (data : Rcd) (k : String) : Option Value :=
  List.lookup k data.reverse

/-- CSVHandler.create: load the frame (an empty one when the file is
absent), append the record as a new row.  pd.concat aligns the existing
columns first and then the unseen keys of the record; earlier rows get
null in new columns and the new row gets null in columns the record does
not set.  The atomic write succeeds in this embedding, so the call
returns true. -/
def create (s : State) (data : Rcd) : Bool × State :=
  let f := match s with | none => Frame.mk [] [] | some f0 => f0
  let cols2 := f.cols ++ newKeys f.cols (data.map Prod.fst)
  let oldRows := f.rows.map (fun r => padRow r cols2.length)
  let newRow := cols2.map (fun c => (dictGet data c).getD VNull)
  (true, some (Frame.mk cols2 (oldRows ++ [newRow])))

/-- CSVHandler.read_all: every row in file order as a record; an absent
table file yields the empty list. -/
def read_all (s : State) : List Rcd :=
  match s with
  | none => []
  | some f => f.rows.map (rowRecord f.cols)

/-- CSVHandler.read_by_id: the id column is coerced with astype(str) and
compared against str(id_value); the first matching row is returned as a
record (its id cell therefore in string form), none when the file or the
id column is absent or nothing matches. -/
def read_by_id (s : State) (idv : Value) (idc : String) : Option Rcd :=
  match s with
  | none => none
  | some f =>
    match colIdx f.cols idc with
    | none => none
    | some j =>
      let strRows := f.rows.map (stringifyAt j)
      match strRows.find? (fun r => astypeStr (r.getD j VNull) == pyStr idv) with
      | none => none
      | some r => some (rowRecord f.cols r)

/-- One key of an update applied to the masked rows: an existing column
is overwritten on the masked rows; a new column is appended to the
header, set to null on every row and then to the value on masked rows. -/
def applyUpdate (cols : List String) (rows : List (List Value)) (mask : List Bool)
    (k : String) (val : Value) : List String × List (List Value) :=
  match colIdx cols k with
  | some j => (cols, List.zipWith (fun r m => if m then setCell j val r else r) rows mask)
  | none =>
      (cols ++ [k],
       List.zipWith (fun r m => padRow r cols.length ++ [if m then val else VNull]) rows mask)

/-- Fold of applyUpdate over the keys of an update record. -/
def applyUpdateFold (updates : Rcd) (cols : List String) (rows : List (List Value))
    (mask : List Bool) : List String × List (List Value) :=
  updates.foldl (fun cr kv => applyUpdate cr.1 cr.2 mask kv.1 kv.2) (cols, rows)

/-- CSVHandler.update_by_id: the id column is coerced with astype(str)
(and written back in that form), the mask of string-matching rows is
computed once, and every key of updates is applied to the masked rows;
false and no write when the file or id column is absent or no row
matches. -/
def update_by_id (s : State) (idv : Value) (updates : Rcd) (idc : String) : Bool × State :=
  match s with
  | none => (false, none)
  | some f =>
    match colIdx f.cols idc with
    | none => (false, some f)
    | some j =>
      let strRows := f.rows.map (stringifyAt j)
      let mask := strRows.map (fun r => astypeStr (r.getD j VNull) == pyStr idv)
      if mask.contains true then
        let cr := applyUpdateFold updates f.cols strRows mask
        (true, some (Frame.mk cr.1 cr.2))
      else (false, some f)

/-- CSVHandler.delete_by_id: the id column is coerced with astype(str),
string-matching rows are dropped; when nothing matched the length is
unchanged and the call returns false without writing. -/
def delete_by_id (s : State) (idv : Value) (idc : String) : Bool × State :=
  match s with
  | none => (false, none)
  | some f =>
    match colIdx f.cols idc with
    | none => (false, some f)
    | some j =>
      let strRows := f.rows.map (stringifyAt j)
      let kept := strRows.filter (fun r => !(astypeStr (r.getD j VNull) == pyStr idv))
      if kept.length = strRows.length then (false, some f)
      else (true, some (Frame.mk f.cols kept))

/-- One condition key folded into the find_all scan: a key naming an
absent column is skipped; otherwise that column is coerced with
astype(str) and the mask is conjoined with string equality against
str(value). -/
def condStep (cols : List String) (st : List (List Value) × List Bool)
    (kv : String × Value) : List (List Value) × List Bool :=
  match colIdx cols kv.1 with
  | none => st
  | some j =>
    let rows2 := st.1.map (stringifyAt j)
    (rows2, List.zipWith (fun r m => m && (astypeStr (r.getD j VNull) == pyStr kv.2)) rows2 st.2)

/-- CSVHandler.find_all: empty when the file is absent or the frame is
empty; otherwise the condition keys are folded over the frame and the
rows left selected by the mask are returned as records. -/
def find_all (s : State) (cond : Rcd) : List Rcd :=
  match s with
  | none => []
  | some f =>
    if f.rows.isEmpty || f.cols.isEmpty then []
    else
      let st := cond.foldl (condStep f.cols) (f.rows, f.rows.map (fun _ => true))
      ((List.zip st.1 st.2).filter (fun rm => rm.2)).map (fun rm => rowRecord f.cols rm.1)

/-- CSVHandler.find_one: head of find_all. -/
def find_one (s : State) (cond : Rcd) : Option Rcd :=
  (find_all s cond).head?

/-- String s starts with pre (computed on the character lists, so that
it evaluates by reduction). -/
def strStartsWith (s pre : String) : Bool :=
  pre.toList.isPrefixOf s.toList

/-- String s with its first n characters removed, the Python slice
s[n:]. -/
def strDropChars (s : String) (n : Nat) : String :=
  String.mk (s.toList.drop n)

/-- Running maximum of Python max over a nonempty list. -/
def listMaxAux (n : Int) (l : List Int) : Int :=
  match l with
  | [] => n
  | x :: xs => listMaxAux (max n x) xs

/-- CSVHandler.generate_id, with the state it leaves returned alongside
the produced id: the body only reads the frame, so every branch returns
the state it was given.  Ids are the id column as astype(str) renders
it; those starting with the prefix whose remaining suffix Python int()
accepts contribute their suffix, and the result is the prefix followed
by the 03d-padded successor of the maximum suffix (001 when the file,
the column or any usable suffix is missing). -/
def generate_id_op (s : State) (pfx : String) (idc : String) : String × State :=
  match s with
  | none => (pfx ++ "001", s)
  | some f =>
    if f.rows.isEmpty || f.cols.isEmpty then (pfx ++ "001", s)
    else
      match colIdx f.cols idc with
      | none => (pfx ++ "001", s)
      | some j =>
        let existing := f.rows.map (fun r => astypeStr (r.getD j VNull))
        let nums := existing.filterMap (fun idstr =>
          if strStartsWith idstr pfx then pyIntParse (strDropChars idstr pfx.length)
          else none)
        match nums with
        | [] => (pfx ++ format03d 1, s)
        | n :: rest => (pfx ++ format03d (listMaxAux n rest + 1), s)

/-- Produced id of generate_id_op. -/
def generate_id (s : State) (pfx : String) (idc : String) : String :=
  (generate_id_op s pfx idc).1

/-- Current value read by increment_field before adding: pd.isna turns a
null into 0, every other cell goes through Python int(). -/
def currentAsInt (v : Value) : Option Int :=
  match v with
  | VNull => some 0
  | v => pyIntOfValue v

/-- CSVHandler.increment_field: the id column is coerced with
astype(str); a missing id column raises KeyError into the catch-all
(false), as does a missing field column once a row has matched; the
first matched row's field cell (null read as 0) plus amount is written
into the field cell of every matched row. -/
def increment_field (s : State) (idv : Value) (idc : String) (field : String)
    (amount : Int) : Bool × State :=
  match s with
  | none => (false, none)
  | some f =>
    match colIdx f.cols idc with
    | none => (false, some f)
    | some j =>
      let strRows := f.rows.map (stringifyAt j)
      let mask := strRows.map (fun r => astypeStr (r.getD j VNull) == pyStr idv)
      if mask.contains true then
        match colIdx f.cols field with
        | none => (false, some f)
        | some k =>
          match strRows.find? (fun r => astypeStr (r.getD j VNull) == pyStr idv) with
          | none => (false, some f)
          | some r0 =>
            match currentAsInt (r0.getD k VNull) with
            | none => (false, some f)
            | some c =>
              (true, some (Frame.mk f.cols
                (List.zipWith (fun r m => if m then setCell k (VInt (c + amount)) r else r)
                  strRows mask)))
      else (false, some f)

/-- Python exceptions observable at the CRUD boundary in this model. -/
inductive PyErr where
  | valueError : PyErr
  | otherError : PyErr
deriving DecidableEq, Repr

/-- CSVHandler._get_file_path: a truthy table name resolves to its csv
file; otherwise the constructor's default file is used; with neither, a
ValueError is raised. -/
def getFilePath (defaultFile : Option String) (tableName : Option String) :
    Except PyErr String :=
  match tableName with
  | some t =>
      if t.isEmpty then
        match defaultFile with
        | some fp => Except.ok fp
        | none => Except.error PyErr.valueError
      else Except.ok (t ++ ".csv")
  | none =>
      match defaultFile with
      | some fp => Except.ok fp
      | none => Except.error PyErr.valueError

/-- Exception boundary of create: the path lookup sits inside the try
block, so its ValueError is swallowed into a false return. -/
def create_api (defaultFile : Option String) (table : String) (s : State) (data : Rcd) :
    Except PyErr (Bool × State) :=
  match getFilePath defaultFile (some table) with
  | Except.error _ => Except.ok (false, s)
  | Except.ok _ => Except.ok (create s data)

/-- Exception boundary of read_all: a body exception is swallowed into
an empty list. -/
def read_all_api (defaultFile : Option String) (table : String) (s : State) :
    Except PyErr (List Rcd) :=
  match getFilePath defaultFile (some table) with
  | Except.error _ => Except.ok []
  | Except.ok _ => Except.ok (read_all s)

/-- Exception boundary of read_by_id: a body exception is swallowed into
none. -/
def read_by_id_api (defaultFile : Option String) (table : String) (s : State)
    (idv : Value) (idc : String) : Except PyErr (Option Rcd) :=
  match getFilePath defaultFile (some table) with
  | Except.error _ => Except.ok none
  | Except.ok _ => Except.ok (read_by_id s idv idc)

/-- Exception boundary of update_by_id: a body exception is swallowed
into a false return, the state left as it was. -/
def update_by_id_api (defaultFile : Option String) (table : String) (s : State)
    (idv : Value) (updates : Rcd) (idc : String) : Except PyErr (Bool × State) :=
  match getFilePath defaultFile (some table) with
  | Except.error _ => Except.ok (false, s)
  | Except.ok _ => Except.ok (update_by_id s idv updates idc)

/-- Exception boundary of delete_by_id: a body exception is swallowed
into a false return. -/
def delete_by_id_api (defaultFile : Option String) (table : String) (s : State)
    (idv : Value) (idc : String) : Except PyErr (Bool × State) :=
  match getFilePath defaultFile (some table) with
  | Except.error _ => Except.ok (false, s)
  | Except.ok _ => Except.ok (delete_by_id s idv idc)

/-- Exception boundary of increment_field: a body exception is swallowed
into a false return. -/
def increment_field_api (defaultFile : Option String) (table : String) (s : State)
    (idv : Value) (idc : String) (field : String) (amount : Int) :
    Except PyErr (Bool × State) :=
  match getFilePath defaultFile (some table) with
  | Except.error _ => Except.ok (false, s)
  | Except.ok _ => Except.ok (increment_field s idv idc field amount)

/-- Exception boundary of find_all: the path lookup raises inside the
try block, but the except handler interpolates _get_file_path again into
its log line, so the very same ValueError re-raises and escapes the
method. -/
def find_all_api (defaultFile : Option String) (tableName : Option String) (s : State)
    (cond : Rcd) : Except PyErr (List Rcd) :=
  match getFilePath defaultFile tableName with
  | Except.error e => Except.error e
  | Except.ok _ => Except.ok (find_all s cond)

/-- Exception boundary of find_one: it calls find, hence find_all, with
no handler of its own, so the escaped ValueError passes through. -/
def find_one_api (defaultFile : Option String) (tableName : Option String) (s : State)
    (cond : Rcd) : Except PyErr (Option Rcd) :=
  match find_all_api defaultFile tableName s cond with
  | Except.error e => Except.error e
  | Except.ok l => Except.ok l.head?

/-- Exception boundary of generate_id: its except clause logs without
re-resolving the path and substitutes prefix plus a random uuid hex
suffix (passed here as fallbackHex), so nothing escapes. -/
def generate_id_api (defaultFile : Option String) (tableName : Option String) (s : State)
    (pfx : String) (idc : String) (fallbackHex : String) : Except PyErr String :=
  match getFilePath defaultFile tableName with
  | Except.error _ => Except.ok (pfx ++ fallbackHex)
  | Except.ok _ => Except.ok (generate_id s pfx idc)

/-- Per-row form of the conjunctive predicate find_all effectively
applies: keys naming absent columns are skipped, present keys compare
the astype(str) cell against str(value). -/
def condHolds (cols : List String) : Rcd → List Value → Bool
  | [], _ => true
  | kv :: rest, r =>
    (match colIdx cols kv.1 with
     | none => true
     | some j => astypeStr (r.getD j VNull) == pyStr kv.2) && condHolds cols rest r

/-- Predicate claim C1 states, following the claim text: every condition
key must name a column whose value string-equals the condition value,
keys naming absent columns included, which no row can then satisfy. -/
def claimC1Holds (cols : List String) : Rcd → List Value → Bool
  | [], _ => true
  | kv :: rest, r =>
    (match colIdx cols kv.1 with
     | none => false
     | some j => astypeStr (r.getD j VNull) == pyStr kv.2) && claimC1Holds cols rest r

/-- Cumulative astype(str) coercions the find_all scan leaves on a row:
each condition key naming a present column stringifies that cell. -/
def stringifyCols (cols : List String) (cond : Rcd) (r : List Value) : List Value :=
  cond.foldl (fun r2 kv =>
    match colIdx cols kv.1 with
    | none => r2
    | some j => stringifyAt j r2) r

/-- Spec-shaped suffix scan of generate_id: per row, the id cell as
astype(str) renders it, kept when it starts with the prefix and its
remaining suffix parses as an integer. -/
def specSuffixes (f : Frame) (pfx : String) (idc : String) : List Int :=
  f.rows.filterMap (fun r =>
    match lookupCell f.cols r idc with
    | none => none
    | some v =>
      let sid := astypeStr v
      if strStartsWith sid pfx then pyIntParse (strDropChars sid pfx.length) else none)

/-- Minimal csv quoting of one text field, as to_csv writes it: a field
holding a separator, quote or line break is wrapped in double quotes
with inner quotes doubled. -/
def csvQuote (s : String) : String :=
  if s.toList.any (fun c => c = ',' || c = '"' || c = '\n' || c = '\r') then
    "\"" ++ String.join (s.toList.map (fun c => if c = '"' then "\"\"" else String.mk [c])) ++ "\""
  else s

/-- On-disk text of one cell: null as an empty field, booleans as Python
prints them, numbers in decimal, strings csv-quoted. -/
def toCsvCell : Value → String
  | VNull => ""
  | VBool true => "True"
  | VBool false => "False"
  | VInt n => toString n
  | VFloat m d => floatRepr m d
  | VStr s => csvQuote s

/-- On-disk text of a frame as to_csv writes it: the header line, then
one line per row. -/
def serializeFrame (f : Frame) : String :=
  String.intercalate "," (f.cols.map csvQuote) ++ "\n" ++
  String.join (f.rows.map (fun r =>
    String.intercalate "," ((padRow r f.cols.length).map toCsvCell) ++ "\n"))

/-- Field and record splitter of csv text; q tracks being inside a
quoted field, fld the current field reversed, rcd the fields of the
current record reversed, recs the finished records reversed. -/
def csvSplitAux : List Char → Bool → List Char → List String → List (List String) →
    List (List String)
  | [], _, fld, rcd, recs =>
      if fld.isEmpty && rcd.isEmpty then recs.reverse
      else ((String.mk fld.reverse :: rcd).reverse :: recs).reverse
  | '"' :: '"' :: rest, true, fld, rcd, recs => csvSplitAux rest true ('"' :: fld) rcd recs
  | '"' :: rest, true, fld, rcd, recs => csvSplitAux rest false fld rcd recs
  | '"' :: rest, false, fld, rcd, recs => csvSplitAux rest true fld rcd recs
  | ',' :: rest, false, fld, rcd, recs =>
      csvSplitAux rest false [] (String.mk fld.reverse :: rcd) recs
  | '\n' :: rest, false, fld, rcd, recs =>
      csvSplitAux rest false [] [] ((String.mk fld.reverse :: rcd).reverse :: recs)
  | c :: rest, q, fld, rcd, recs => csvSplitAux rest q (c :: fld) rcd recs

/-- Field texts read_csv treats as missing values by default. -/
def naStrings : List String :=
  ["", "#N/A", "#N/A N/A", "#NA", "-1.#IND", "-1.#QNAN", "-NaN", "-nan",
   "1.#IND", "1.#QNAN", "<NA>", "N/A", "NA", "NULL", "NaN", "None", "n/a", "nan", "null"]

/-- Field text counts as a missing value. -/
def isNA (s : String) : Bool := naStrings.contains s

/-- Value of an unsigned digit run, none on a non-digit. -/
def digitsVal : List Char → Nat → Option Nat
  | [], acc => some acc
  | c :: rest, acc => if c.isDigit then digitsVal rest (acc * 10 + (c.toNat - 48)) else none

/-- Integer field as the csv reader accepts one: optional sign then
digits. -/
def intCellParse (s : String) : Option Int :=
  match s.toList with
  | [] => none
  | '-' :: c :: rest =>
      if c.isDigit then (digitsVal rest (c.toNat - 48)).map (fun n => -(n : Int)) else none
  | '+' :: c :: rest =>
      if c.isDigit then (digitsVal rest (c.toNat - 48)).map (fun n => (n : Int)) else none
  | c :: rest =>
      if c.isDigit then (digitsVal rest (c.toNat - 48)).map (fun n => (n : Int)) else none

/-- Fractional digit run after the decimal point, returning mantissa so
far and count of decimal digits. -/
def fracVal : List Char → Nat → Nat → Option (Nat × Nat)
  | [], acc, d => some (acc, d)
  | c :: rest, acc, d =>
      if c.isDigit then fracVal rest (acc * 10 + (c.toNat - 48)) (d + 1) else none

/-- Mantissa digits optionally followed by a decimal point and
fractional digits. -/
def mantVal : List Char → Nat → Option (Nat × Nat)
  | [], acc => some (acc, 0)
  | '.' :: rest, acc => fracVal rest acc 0
  | c :: rest, acc => if c.isDigit then mantVal rest (acc * 10 + (c.toNat - 48)) else none

/-- Unsigned decimal float body. -/
def floatBody : List Char → Option (Nat × Nat)
  | [] => none
  | '.' :: rest => if rest.isEmpty then none else fracVal rest 0 0
  | c :: rest => if c.isDigit then mantVal rest (c.toNat - 48) else none

/-- Decimal float field as the csv reader accepts one. -/
def floatCellParse (s : String) : Option (Int × Nat) :=
  match s.toList with
  | [] => none
  | '-' :: rest => (floatBody rest).map (fun p => (-(p.1 : Int), p.2))
  | '+' :: rest => (floatBody rest).map (fun p => ((p.1 : Int), p.2))
  | rest => (floatBody rest).map (fun p => ((p.1 : Int), p.2))

/-- Boolean field texts the csv reader maps to True. -/
def trueStrings : List String := ["True", "TRUE", "true"]

/-- Boolean field texts the csv reader maps to False. -/
def falseStrings : List String := ["False", "FALSE", "false"]

/-- Column-level dtype inference of read_csv: a column all of whose
fields are integer literals with no missing value reads as integers;
one of numeric literals (missing values allowed) reads as floats, an
integer literal then printing with a trailing .0; one of boolean
literals reads as booleans; anything else reads as text with missing
values null. -/
def inferColumn (raws : List String) : List Value :=
  let nonNA := raws.filter (fun s => !isNA s)
  if !nonNA.isEmpty && nonNA.all (fun s => (intCellParse s).isSome) &&
      raws.all (fun s => !isNA s) then
    raws.map (fun s => match intCellParse s with | some n => VInt n | none => VNull)
  else if !nonNA.isEmpty && nonNA.all (fun s => (floatCellParse s).isSome) then
    raws.map (fun s =>
      if isNA s then VNull
      else match floatCellParse s with | some p => VFloat p.1 p.2 | none => VNull)
  else if !nonNA.isEmpty && nonNA.all (fun s => trueStrings.contains s || falseStrings.contains s) then
    raws.map (fun s => if isNA s then VNull else VBool (trueStrings.contains s))
  else
    raws.map (fun s => if isNA s then VNull else VStr s)

/-- read_csv on the text of a table file: split into records, drop blank
lines, take the first record as the header and infer each column's
values; a missing trailing field of a short row reads as missing. -/
def parseCsv (s : String) : Option Frame :=
  match (csvSplitAux s.toList false [] [] []).filter (fun r => r ≠ [""]) with
  | [] => none
  | header :: rawRows =>
    let ncols := header.length
    let colsVals := (List.range ncols).map (fun i => inferColumn (rawRows.map (fun r => r.getD i "")))
    some (Frame.mk header ((List.range rawRows.length).map (fun ri =>
      (List.range ncols).map (fun ci => (colsVals.getD ci []).getD ri VNull))))

/-- One scheduled increment of the C9 scenario: whichever thread runs,
it increments the count field of row U1 by one while holding the table
lock, so each step is atomic and the schedule is an arbitrary
interleaving. -/
def incStep (s : State) (_tid : Bool) : State :=
  (increment_field s (VStr "U1") "id" "count" 1).2

/-! Helper lemmas about row and column access. -/

theorem setAtMap_length (j : Nat) (g : Value → Value) (r : List Value) :
    (setAtMap j g r).length = r.length := by
  induction r generalizing j with
  | nil => simp [setAtMap]
  | cons v vs ih =>
    cases j with
    | zero => simp [setAtMap]
    | succ j0 => simp [setAtMap, ih]

theorem getD_setAtMap_ne (j i : Nat) (g : Value → Value) (r : List Value) (h : i ≠ j) :
    (setAtMap j g r).getD i VNull = r.getD i VNull := by
  induction r generalizing j i with
  | nil => simp [setAtMap]
  | cons v vs ih =>
    cases j with
    | zero =>
      cases i with
      | zero => exact absurd rfl h
      | succ i0 => simp [setAtMap]
    | succ j0 =>
      cases i with
      | zero => simp [setAtMap]
      | succ i0 => simpa [setAtMap] using ih j0 i0 (fun he => h (by omega))

theorem getD_setAtMap_self (j : Nat) (g : Value → Value) (r : List Value)
    (h : j < r.length) :
    (setAtMap j g r).getD j VNull = g (r.getD j VNull) := by
  induction r generalizing j with
  | nil => simp at h
  | cons v vs ih =>
    cases j with
    | zero => simp [setAtMap]
    | succ j0 => simpa [setAtMap] using ih j0 (by simpa using h)

theorem getD_setAtMap_oob (j : Nat) (g : Value → Value) (r : List Value)
    (h : r.length ≤ j) :
    (setAtMap j g r).getD j VNull = r.getD j VNull := by
  have h1 : (setAtMap j g r).length ≤ j := by rw [setAtMap_length]; exact h
  rw [List.getD_eq_default _ _ h1, List.getD_eq_default _ _ h]

theorem astypeStr_stringifyAt (j i : Nat) (r : List Value) :
    astypeStr ((stringifyAt j r).getD i VNull) = astypeStr (r.getD i VNull) := by
  by_cases hij : i = j
  · subst hij
    by_cases hlen : i < r.length
    · rw [stringifyAt, getD_setAtMap_self i _ r hlen]
      rfl
    · rw [stringifyAt, getD_setAtMap_oob i _ r (by omega)]
  · rw [stringifyAt, getD_setAtMap_ne j i _ r hij]

theorem stringifyAt_length (j : Nat) (r : List Value) :
    (stringifyAt j r).length = r.length := setAtMap_length j _ r

theorem colIdx_lt_length (cols : List String) (c : String) (j : Nat)
    (h : colIdx cols c = some j) : j < cols.length := by
  induction cols generalizing j with
  | nil => simp [colIdx] at h
  | cons c0 cs ih =>
    rw [colIdx] at h
    by_cases h0 : c0 = c
    · rw [if_pos h0] at h
      injection h with h
      simp [← h]
    · rw [if_neg h0] at h
      cases hcs : colIdx cs c with
      | none => rw [hcs] at h; simp at h
      | some j0 =>
        rw [hcs] at h
        simp at h
        have := ih j0 hcs
        simp
        omega

theorem colIdx_getD (cols : List String) (c : String) (j : Nat)
    (h : colIdx cols c = some j) : cols.getD j "" = c := by
  induction cols generalizing j with
  | nil => simp [colIdx] at h
  | cons c0 cs ih =>
    rw [colIdx] at h
    by_cases h0 : c0 = c
    · rw [if_pos h0] at h
      injection h with h
      rw [← h]
      simpa using h0
    · rw [if_neg h0] at h
      cases hcs : colIdx cs c with
      | none => rw [hcs] at h; simp at h
      | some j0 =>
        rw [hcs] at h
        simp at h
        rw [← h]
        simpa using ih j0 hcs

theorem colIdx_eq_none_iff (cols : List String) (c : String) :
    colIdx cols c = none ↔ ¬ c ∈ cols := by
  induction cols with
  | nil => simp [colIdx]
  | cons c0 cs ih =>
    rw [colIdx]
    by_cases h0 : c0 = c
    · simp [h0]
    · simp only [if_neg h0, List.mem_cons]
      rw [Option.map_eq_none', ih]
      constructor
      · intro hni hmem
        rcases hmem with hmem | hmem
        · exact h0 hmem.symm
        · exact hni hmem
      · intro hni hmem
        exact hni (Or.inr hmem)

theorem colIdx_append_some (cols l : List String) (c : String) (j : Nat)
    (h : colIdx cols c = some j) : colIdx (cols ++ l) c = some j := by
  induction cols generalizing j with
  | nil => simp [colIdx] at h
  | cons c0 cs ih =>
    by_cases h0 : c0 = c
    · simp [colIdx, h0] at h ⊢
      exact h
    · simp [colIdx, h0] at h ⊢
      obtain ⟨j0, hj0, hj⟩ := h
      exact ⟨j0, ih j0 hj0, hj⟩

theorem colIdx_append_of_none (cols l : List String) (c : String)
    (h : colIdx cols c = none) :
    colIdx (cols ++ l) c = (colIdx l c).map (· + cols.length) := by
  induction cols with
  | nil => simp [colIdx]
  | cons c0 cs ih =>
    by_cases h0 : c0 = c
    · simp [colIdx, h0] at h
    · simp [colIdx, h0] at h ⊢
      rw [ih h]
      cases colIdx l c with
      | none => simp
      | some j => simp; omega

theorem getD_append_lt (r l : List Value) (i : Nat) (h : i < r.length) :
    (r ++ l).getD i VNull = r.getD i VNull := by
  induction r generalizing i with
  | nil => simp at h
  | cons v vs ih =>
    cases i with
    | zero => simp
    | succ i0 => simpa using ih i0 (by simpa using h)

theorem getD_append_length (r : List Value) (w : Value) :
    (r ++ [w]).getD r.length VNull = w := by
  induction r with
  | nil => simp
  | cons v vs ih => simp [ih]

theorem map_getD (g : List Value → List Value) (l : List (List Value)) (i : Nat)
    (h : i < l.length) : (l.map g).getD i [] = g (l.getD i []) := by
  induction l generalizing i with
  | nil => simp at h
  | cons x xs ih =>
    cases i with
    | zero => simp
    | succ i0 => simpa using ih i0 (by simpa using h)

theorem mapBool_getD (g : List Value → Bool) (l : List (List Value)) (i : Nat)
    (h : i < l.length) : (l.map g).getD i false = g (l.getD i []) := by
  induction l generalizing i with
  | nil => simp at h
  | cons x xs ih =>
    cases i with
    | zero => simp
    | succ i0 => simpa using ih i0 (by simpa using h)

theorem zipWith_getD {α β γ : Type} (g : α → β → γ) (l1 : List α) (l2 : List β)
    (i : Nat) (d1 : α) (d2 : β) (dg : γ) (hlen : l1.length = l2.length)
    (hi : i < l1.length) :
    (List.zipWith g l1 l2).getD i dg = g (l1.getD i d1) (l2.getD i d2) := by
  induction l1 generalizing l2 i with
  | nil => simp at hi
  | cons x xs ih =>
    cases l2 with
    | nil => simp at hlen
    | cons y ys =>
      cases i with
      | zero => simp
      | succ i0 =>
        simpa using ih ys i0 (by simpa using hlen) (by simpa using hi)

theorem zipWith_fusion {α β γ : Type} (f : α → γ → β) (g : α → β → γ)
    (l : List α) (m : List β) :
    List.zipWith f l (List.zipWith g l m) = List.zipWith (fun a b => f a (g a b)) l m := by
  induction l generalizing m with
  | nil => simp
  | cons x xs ih =>
    cases m with
    | nil => simp
    | cons y ys => simpa using ih ys

theorem zipWith_map_first {α β γ : Type} (f : α → β → γ) (g : α → α)
    (l : List α) (m : List β) :
    List.zipWith f (l.map g) m = List.zipWith (fun a b => f (g a) b) l m := by
  induction l generalizing m with
  | nil => simp
  | cons x xs ih =>
    cases m with
    | nil => simp
    | cons y ys => simpa using ih ys

theorem zipWith_snd {α β : Type} (l : List α) (m : List β)
    (h : m.length = l.length) :
    List.zipWith (fun _ b => b) l m = m := by
  induction l generalizing m with
  | nil => cases m with | nil => rfl | cons y ys => simp at h
  | cons x xs ih =>
    cases m with
    | nil => simp at h
    | cons y ys => simpa using ih ys (by simpa using h)

theorem filter_of_map {α : Type} (σ : α → α) (p : α → Bool) (l : List α) :
    (l.map σ).filter p = (l.filter (fun a => p (σ a))).map σ := by
  induction l with
  | nil => rfl
  | cons x xs ih =>
    by_cases hx : p (σ x)
    · simp [hx, ih]
    · simp [hx, ih]

theorem filter_length_eq_iff {α : Type} (p : α → Bool) (l : List α) :
    (l.filter p).length = l.length ↔ ∀ a ∈ l, p a = true := by
  induction l with
  | nil => simp
  | cons x xs ih =>
    by_cases hx : p x
    · simp [hx, ih]
    · simp [hx]
      intro h
      have := List.length_filter_le p xs
      omega

theorem listMaxAux_mem (n : Int) (l : List Int) :
    listMaxAux n l = n ∨ listMaxAux n l ∈ l := by
  induction l generalizing n with
  | nil => simp [listMaxAux]
  | cons x xs ih =>
    rw [listMaxAux]
    rcases ih (max n x) with h | h
    · rcases max_choice n x with hm | hm
      · left; rw [h, hm]
      · right; rw [h, hm]; simp
    · right; simp [h]

theorem listMaxAux_le (n : Int) (l : List Int) :
    n ≤ listMaxAux n l ∧ ∀ x ∈ l, x ≤ listMaxAux n l := by
  induction l generalizing n with
  | nil => simp [listMaxAux]
  | cons y ys ih =>
    rw [listMaxAux]
    obtain ⟨h1, h2⟩ := ih (max n y)
    refine ⟨le_trans (le_max_left n y) h1, ?_⟩
    intro x hx
    rcases List.mem_cons.mp hx with hx | hx
    · subst hx; exact le_trans (le_max_right n x) h1
    · exact h2 x hx

theorem count_true_add_count_false (l : List Bool) :
    l.count true + l.count false = l.length := by
  induction l with
  | nil => rfl
  | cons b bs ih =>
    cases b <;> simp [List.count_cons, ih] <;> omega

theorem getD_map_gen {α β : Type} (g : α → β) (l : List α) (i : Nat) (d : α) (db : β)
    (h : i < l.length) : (l.map g).getD i db = g (l.getD i d) := by
  induction l generalizing i with
  | nil => simp at h
  | cons x xs ih =>
    cases i with
    | zero => simp
    | succ i0 => simpa using ih i0 (by simpa using h)

theorem lookup_rowRecord (cols : List String) (r : List Value) (c : String) :
    List.lookup c (rowRecord cols r) = lookupCell cols r c := by
  induction cols generalizing r with
  | nil => cases r <;> simp [rowRecord, lookupCell, colIdx]
  | cons c0 cs ih =>
    by_cases h0 : c0 = c
    · cases r with
      | nil => simp [rowRecord, List.lookup, lookupCell, colIdx, h0]
      | cons v vs => simp [rowRecord, List.lookup, lookupCell, colIdx, h0]
    · have hb : (c == c0) = false := by
        simp only [beq_eq_false_iff_ne, ne_eq]
        exact fun h => h0 h.symm
      cases r with
      | nil =>
        rw [rowRecord]
        rw [List.lookup]
        rw [hb]
        rw [ih []]
        rw [lookupCell, lookupCell, colIdx, if_neg h0, Option.map_map]
        cases colIdx cs c <;> simp
      | cons v vs =>
        rw [rowRecord]
        rw [List.lookup]
        rw [hb]
        rw [ih vs]
        rw [lookupCell, lookupCell, colIdx, if_neg h0, Option.map_map]
        cases colIdx cs c <;> simp

/-- C10: generate_id never modifies the store: on every table state,
prefix and id column the operation leaves the state exactly as it found
it (every control path returns the input state: the body is a pure read
and persists no counter), while the produced string is the generated
id. -/
theorem c10_generate_id_pure_read (s : State) (pfx idc : String) :
    (generate_id_op s pfx idc).2 = s ∧
    (generate_id_op s pfx idc).1 = generate_id s pfx idc := by
  refine ⟨?_, rfl⟩
  cases s with
  | none => rfl
  | some f =>
    rw [generate_id_op]
    split
    · rfl
    · split
      · rfl
      · dsimp only
        split
        · rfl
        · rfl

/-- C6: read_all on an absent table file is the empty list rather than
an error; on an existing table it yields one record per row in file
order, and every column of the table is present in each record, a null
cell surfacing as an explicit null value rather than being omitted. -/
theorem c6_read_all_spec (f : Frame) :
    read_all none = [] ∧
    (read_all (some f)).length = f.rows.length ∧
    (∀ i, i < f.rows.length → ∀ c, c ∈ f.cols → ∃ j, colIdx f.cols c = some j ∧
      List.lookup c ((read_all (some f)).getD i []) =
        some ((f.rows.getD i []).getD j VNull)) := by
  refine ⟨rfl, by simp [read_all], ?_⟩
  intro i hi c hc
  cases hj : colIdx f.cols c with
  | none => exact absurd hc (by simpa using (colIdx_eq_none_iff f.cols c).mp hj)
  | some j =>
    refine ⟨j, rfl, ?_⟩
    rw [read_all]
    rw [getD_map_gen (rowRecord f.cols) f.rows i [] [] hi]
    rw [lookup_rowRecord, lookupCell, hj]
    rfl

/-- Witness for C6 at a concrete two-column table with a null cell. -/
theorem c6_read_all_spec_witness :
    0 < (Frame.mk ["a", "b"] [[VStr "x", VNull]]).rows.length ∧
    "b" ∈ (Frame.mk ["a", "b"] [[VStr "x", VNull]]).cols ∧
    (∃ j, colIdx (Frame.mk ["a", "b"] [[VStr "x", VNull]]).cols "b" = some j ∧
      List.lookup "b" ((read_all (some (Frame.mk ["a", "b"] [[VStr "x", VNull]]))).getD 0 []) =
        some (((Frame.mk ["a", "b"] [[VStr "x", VNull]]).rows.getD 0 []).getD j VNull)) :=
  ⟨by decide, by decide,
    (c6_read_all_spec (Frame.mk ["a", "b"] [[VStr "x", VNull]])).2.2 0 (by decide) "b" (by decide)⟩

/-- C7 counterexample: the claim says booleans are serialized as the
lowercase literals true and false, but to_csv writes the Python
capitalized forms: the cell text of a true cell is the literal True, and
the concrete created row of the round-trip scenario serializes with the
text True, not true. -/
theorem c7_lowercase_bool_cex :
    toCsvCell (VBool true) = "True" ∧ toCsvCell (VBool true) ≠ "true" ∧
    serializeFrame (Frame.mk ["id", "n", "s", "b"]
        [[VStr "X1", VInt 1, VStr "hi", VBool true]]) = "id,n,s,b\nX1,1,hi,True\n" := by
  refine ⟨rfl, by decide, by decide⟩

/-- C7 amended: booleans are serialized on disk as the capitalized
literals True and False, and for a fresh table, create of a record with
string, int and boolean fields followed by read_by_id on its id returns
a record whose fields equal the originals, the boolean field
round-tripping through the literal text True. -/
theorem c7_round_trip_amended :
    create none [("id", VStr "X1"), ("n", VInt 1), ("s", VStr "hi"), ("b", VBool true)] =
      (true, some (Frame.mk ["id", "n", "s", "b"]
        [[VStr "X1", VInt 1, VStr "hi", VBool true]])) ∧
    serializeFrame (Frame.mk ["id", "n", "s", "b"]
        [[VStr "X1", VInt 1, VStr "hi", VBool true]]) = "id,n,s,b\nX1,1,hi,True\n" ∧
    parseCsv "id,n,s,b\nX1,1,hi,True\n" =
      some (Frame.mk ["id", "n", "s", "b"] [[VStr "X1", VInt 1, VStr "hi", VBool true]]) ∧
    read_by_id (some (Frame.mk ["id", "n", "s", "b"]
        [[VStr "X1", VInt 1, VStr "hi", VBool true]])) (VStr "X1") "id" =
      some [("id", VStr "X1"), ("n", VInt 1), ("s", VStr "hi"), ("b", VBool true)] := by
  refine ⟨by decide, by decide, by decide, by decide⟩

/-- C8 counterexample: on a handler constructed without a default file,
find_all and find_one called without a table name let the path-lookup
ValueError escape the CRUD boundary: the error is raised inside the try
block and raised again by the except handler's log line, which
interpolates the path lookup once more. -/
theorem c8_find_all_escapes_cex :
    find_all_api none none (some (Frame.mk ["a"] [[VStr "x"]])) [] =
      Except.error PyErr.valueError ∧
    find_one_api none none (some (Frame.mk ["a"] [[VStr "x"]])) [] =
      Except.error PyErr.valueError := ⟨rfl, rfl⟩

/-- C8 amended: every public store operation that takes a mandatory
table name (create, read_all, read_by_id, update_by_id, delete_by_id,
increment_field) returns a success flag or a possibly-empty result and
never lets an exception escape, and generate_id never lets one escape
either (its handler substitutes a random fallback suffix); find_all and
find_one also never let one escape provided a default file or a
nonempty table name was supplied — without either, their path-misuse
ValueError propagates past the CRUD boundary. -/
theorem c8_no_escape_amended (df : Option String) (t : String) (tq : Option String)
    (s : State) (data cond updates : Rcd) (idv : Value) (idc fld pfx fb : String)
    (amount : Int)
    (hq : df.isSome ∨ ∃ t2, tq = some t2 ∧ ¬ t2.isEmpty) :
    (∃ r, create_api df t s data = Except.ok r) ∧
    (∃ r, read_all_api df t s = Except.ok r) ∧
    (∃ r, read_by_id_api df t s idv idc = Except.ok r) ∧
    (∃ r, update_by_id_api df t s idv updates idc = Except.ok r) ∧
    (∃ r, delete_by_id_api df t s idv idc = Except.ok r) ∧
    (∃ r, increment_field_api df t s idv idc fld amount = Except.ok r) ∧
    (∃ r, generate_id_api df tq s pfx idc fb = Except.ok r) ∧
    (∃ r, find_all_api df tq s cond = Except.ok r) ∧
    (∃ r, find_one_api df tq s cond = Except.ok r) := by
  have hpath : ∃ p, getFilePath df tq = Except.ok p := by
    rcases hq with hdf | ⟨t2, ht2, hne⟩
    · cases df with
      | none => simp at hdf
      | some fp =>
        cases tq with
        | none => exact ⟨fp, rfl⟩
        | some t2 =>
          by_cases he : t2.isEmpty
          · exact ⟨fp, by simp [getFilePath, he]⟩
          · exact ⟨t2 ++ ".csv", by simp [getFilePath, he]⟩
    · subst ht2
      cases df with
      | none => exact ⟨t2 ++ ".csv", by simp [getFilePath, hne]⟩
      | some fp => exact ⟨t2 ++ ".csv", by simp [getFilePath, hne]⟩
  obtain ⟨p, hp⟩ := hpath
  refine ⟨?_, ?_, ?_, ?_, ?_, ?_, ?_, ?_, ?_⟩
  · rw [create_api]
    cases getFilePath df (some t) with
    | error e => exact ⟨(false, s), rfl⟩
    | ok p2 => exact ⟨create s data, rfl⟩
  · rw [read_all_api]
    cases getFilePath df (some t) with
    | error e => exact ⟨[], rfl⟩
    | ok p2 => exact ⟨read_all s, rfl⟩
  · rw [read_by_id_api]
    cases getFilePath df (some t) with
    | error e => exact ⟨none, rfl⟩
    | ok p2 => exact ⟨read_by_id s idv idc, rfl⟩
  · rw [update_by_id_api]
    cases getFilePath df (some t) with
    | error e => exact ⟨(false, s), rfl⟩
    | ok p2 => exact ⟨update_by_id s idv updates idc, rfl⟩
  · rw [delete_by_id_api]
    cases getFilePath df (some t) with
    | error e => exact ⟨(false, s), rfl⟩
    | ok p2 => exact ⟨delete_by_id s idv idc, rfl⟩
  · rw [increment_field_api]
    cases getFilePath df (some t) with
    | error e => exact ⟨(false, s), rfl⟩
    | ok p2 => exact ⟨increment_field s idv idc fld amount, rfl⟩
  · rw [generate_id_api]
    cases getFilePath df tq with
    | error e => exact ⟨pfx ++ fb, rfl⟩
    | ok p2 => exact ⟨generate_id s pfx idc, rfl⟩
  · rw [find_all_api, hp]
    exact ⟨_, rfl⟩
  · rw [find_one_api, find_all_api, hp]
    exact ⟨_, rfl⟩

/-- Witness for C8 on a handler with a default file and no table
argument. -/
theorem c8_no_escape_amended_witness :
    ((some "users.csv" : Option String).isSome ∨
      ∃ t2, (none : Option String) = some t2 ∧ ¬ t2.isEmpty) ∧
    (∃ r, find_all_api (some "users.csv") none (some (Frame.mk ["a"] [[VStr "x"]])) [] =
      Except.ok r) :=
  ⟨Or.inl rfl,
    (c8_no_escape_amended (some "users.csv") "t" none
      (some (Frame.mk ["a"] [[VStr "x"]])) [] [] [] VNull "id" "f" "P" "AB12CD" 1
      (Or.inl rfl)).2.2.2.2.2.2.2.1⟩

theorem filterMap_of_map {α β γ : Type} (g : α → β) (h : β → Option γ) (l : List α) :
    (l.map g).filterMap h = l.filterMap (fun a => h (g a)) := by
  induction l with
  | nil => rfl
  | cons x xs ih =>
    cases hx : h (g x) with
    | none => simp [List.filterMap_cons, hx, ih]
    | some y => simp [List.filterMap_cons, hx, ih]

theorem generate_id_nums (f : Frame) (pfx idc : String) (j : Nat)
    (hj : colIdx f.cols idc = some j) :
    (f.rows.map (fun r => astypeStr (r.getD j VNull))).filterMap (fun idstr =>
        if strStartsWith idstr pfx then pyIntParse (strDropChars idstr pfx.length)
        else none) =
      specSuffixes f pfx idc := by
  rw [specSuffixes, filterMap_of_map]
  congr 1
  funext r
  simp [lookupCell, hj]

/-- C2: generate_id scans the id column, keeps the ids starting with the
prefix whose remaining suffix parses as an integer (skipping unparsable
ids rather than failing), and returns the prefix followed by the
zero-padded successor of the maximum suffix; a missing table file or id
column yields prefix001; with existing ids TRN001 and TRN005 it returns
TRN006, and an unparsable id among them is simply skipped. -/
theorem c2_generate_id_spec (f : Frame) (pfx idc : String) :
    generate_id none pfx idc = pfx ++ "001" ∧
    (colIdx f.cols idc = none → generate_id (some f) pfx idc = pfx ++ "001") ∧
    (∀ m : Int, m ∈ specSuffixes f pfx idc → (∀ x ∈ specSuffixes f pfx idc, x ≤ m) →
      generate_id (some f) pfx idc = pfx ++ format03d (m + 1)) ∧
    generate_id (some (Frame.mk ["id"] [[VStr "TRN001"], [VStr "TRN005"]])) "TRN" "id" =
      "TRN006" ∧
    generate_id (some (Frame.mk ["id"] [[VStr "TRN001"], [VStr "TRNXY"]])) "TRN" "id" =
      "TRN002" := by
  refine ⟨rfl, ?_, ?_, by decide, by decide⟩
  · intro hj
    rw [generate_id, generate_id_op]
    split
    · rfl
    · rw [hj]
  · intro m hm hub
    have hm2 := hm
    rw [specSuffixes] at hm2
    obtain ⟨r, hr, hfn⟩ := List.mem_filterMap.mp hm2
    cases hj : colIdx f.cols idc with
    | none => simp [lookupCell, hj] at hfn
    | some j =>
      have hrows : f.rows.isEmpty = false := by
        cases hr2 : f.rows with
        | nil => rw [hr2] at hr; simp at hr
        | cons a l => rfl
      have hcols : f.cols.isEmpty = false := by
        cases hc2 : f.cols with
        | nil => rw [hc2, colIdx] at hj; simp at hj
        | cons a l => rfl
      rw [generate_id, generate_id_op]
      rw [if_neg (by rw [hrows, hcols]; simp)]
      rw [hj]
      dsimp only
      rw [generate_id_nums f pfx idc j hj]
      cases hn : specSuffixes f pfx idc with
      | nil => rw [hn] at hm; simp at hm
      | cons n rest =>
        dsimp only
        have hmax : listMaxAux n rest = m := by
          apply le_antisymm
          · rcases listMaxAux_mem n rest with hx | hx
            · rw [hx]
              exact hub n (by rw [hn]; exact List.mem_cons_self n rest)
            · exact hub (listMaxAux n rest) (by rw [hn]; exact List.mem_cons_of_mem n hx)
          · rw [hn] at hm
            rcases List.mem_cons.mp hm with hm | hm
            · rw [hm]
              exact (listMaxAux_le n rest).1
            · exact (listMaxAux_le n rest).2 m hm
        rw [hmax]

/-- Witness for C2 at the TRN table, maximum suffix 5. -/
theorem c2_generate_id_spec_witness :
    (5 : Int) ∈ specSuffixes (Frame.mk ["id"] [[VStr "TRN001"], [VStr "TRN005"]]) "TRN" "id" ∧
    (∀ x ∈ specSuffixes (Frame.mk ["id"] [[VStr "TRN001"], [VStr "TRN005"]]) "TRN" "id",
      x ≤ (5 : Int)) ∧
    generate_id (some (Frame.mk ["id"] [[VStr "TRN001"], [VStr "TRN005"]])) "TRN" "id" =
      "TRN" ++ format03d (5 + 1) :=
  ⟨by decide, by decide,
    (c2_generate_id_spec (Frame.mk ["id"] [[VStr "TRN001"], [VStr "TRN005"]]) "TRN" "id").2.2.1
      5 (by decide) (by decide)⟩

theorem filter_congr_own {α : Type} (p q : α → Bool) (l : List α)
    (h : ∀ a ∈ l, p a = q a) : l.filter p = l.filter q := by
  induction l with
  | nil => rfl
  | cons x xs ih =>
    rw [List.filter_cons, List.filter_cons, h x (List.mem_cons_self x xs),
      ih (fun a ha => h a (List.mem_cons_of_mem x ha))]

/-- C5: delete_by_id removes exactly the rows whose id column
string-matches the probe, preserving the relative order of the kept rows
(which are written back with their id cell in its astype(str) string
form); when no row matches — the file or the id column missing included
— it returns false and the table state is exactly unchanged. -/
theorem c5_delete_by_id_spec (f : Frame) (idv : Value) (idc : String) :
    delete_by_id none idv idc = (false, none) ∧
    ((∀ r ∈ f.rows, rowMatches f.cols idc idv r = false) →
      delete_by_id (some f) idv idc = (false, some f)) ∧
    (∀ j, colIdx f.cols idc = some j →
      (∃ r0 ∈ f.rows, rowMatches f.cols idc idv r0 = true) →
      delete_by_id (some f) idv idc =
        (true, some (Frame.mk f.cols
          ((f.rows.filter (fun r => !(rowMatches f.cols idc idv r))).map
            (stringifyAt j))))) := by
  refine ⟨rfl, ?_, ?_⟩
  · intro hnone
    rw [delete_by_id]
    cases hj : colIdx f.cols idc with
    | none => rfl
    | some j =>
      dsimp only
      rw [if_pos]
      apply (filter_length_eq_iff _ _).mpr
      intro r hr
      obtain ⟨r0, hr0, hr0eq⟩ := List.mem_map.mp hr
      have hbeq : rowMatches f.cols idc idv r0 = false := hnone r0 hr0
      simp only [rowMatches, hj] at hbeq
      rw [← hr0eq, astypeStr_stringifyAt j j r0, hbeq]
      rfl
  · intro j hj hex
    obtain ⟨r0, hr0, hr0m⟩ := hex
    rw [delete_by_id, hj]
    dsimp only
    rw [if_neg]
    · rw [filter_of_map]
      have hcong : (f.rows.filter
            (fun r => !(astypeStr ((stringifyAt j r).getD j VNull) == pyStr idv))) =
          (f.rows.filter (fun r => !(rowMatches f.cols idc idv r))) := by
        apply filter_congr_own
        intro r hr
        rw [astypeStr_stringifyAt j j r, rowMatches, hj]
      rw [hcong]
    · intro hlen
      have hall := (filter_length_eq_iff _ _).mp hlen
      have hmem : stringifyAt j r0 ∈ f.rows.map (stringifyAt j) :=
        List.mem_map.mpr ⟨r0, hr0, rfl⟩
      have := hall _ hmem
      rw [astypeStr_stringifyAt j j r0] at this
      simp only [rowMatches, hj] at hr0m
      rw [hr0m] at this
      simp at this

/-- Witness for C5: deleting id A from a two-row table keeps only row B,
and deleting a missing id leaves the table unchanged. -/
theorem c5_delete_by_id_spec_witness :
    (∀ r ∈ (Frame.mk ["id"] [[VStr "A"], [VStr "B"]]).rows,
        rowMatches ["id"] "id" (VStr "missing") r = false) ∧
    delete_by_id (some (Frame.mk ["id"] [[VStr "A"], [VStr "B"]])) (VStr "missing") "id" =
      (false, some (Frame.mk ["id"] [[VStr "A"], [VStr "B"]])) ∧
    delete_by_id (some (Frame.mk ["id"] [[VStr "A"], [VStr "B"]])) (VStr "A") "id" =
      (true, some (Frame.mk ["id"]
        (((Frame.mk ["id"] [[VStr "A"], [VStr "B"]]).rows.filter
          (fun r => !(rowMatches ["id"] "id" (VStr "A") r))).map (stringifyAt 0)))) :=
  ⟨by decide,
    (c5_delete_by_id_spec (Frame.mk ["id"] [[VStr "A"], [VStr "B"]]) (VStr "missing") "id").2.1
      (by decide),
    (c5_delete_by_id_spec (Frame.mk ["id"] [[VStr "A"], [VStr "B"]]) (VStr "A") "id").2.2
      0 (by decide) ⟨[VStr "A"], by decide, by decide⟩⟩

theorem condHolds_stringifyAt (cols : List String) (cond : Rcd) (j : Nat) :
    ∀ r : List Value, condHolds cols cond (stringifyAt j r) = condHolds cols cond r := by
  induction cond with
  | nil => intro r; rfl
  | cons kv rest ih =>
    intro r
    rw [condHolds, condHolds]
    cases hk : colIdx cols kv.1 with
    | none => simp only [hk, ih r]
    | some j2 => simp only [hk, astypeStr_stringifyAt j j2 r, ih r]

theorem condFold_closed (cols : List String) (cond : Rcd) :
    ∀ (rows : List (List Value)) (mask : List Bool), mask.length = rows.length →
    cond.foldl (condStep cols) (rows, mask) =
      (rows.map (stringifyCols cols cond),
       List.zipWith (fun r m => m && condHolds cols cond r) rows mask) := by
  induction cond with
  | nil =>
    intro rows mask hlen
    rw [List.foldl_nil]
    have h1 : rows.map (stringifyCols cols []) = rows := by
      have he : stringifyCols cols [] = fun (r : List Value) => r := by
        funext r
        rfl
      rw [he]
      exact List.map_id' rows
    have h2 : List.zipWith (fun (r : List Value) m => m && condHolds cols [] r) rows mask =
        mask := by
      have he : ∀ r : List Value, condHolds cols [] r = true := fun r => rfl
      calc List.zipWith (fun (r : List Value) m => m && condHolds cols [] r) rows mask
          = List.zipWith (fun (r : List Value) (m : Bool) => m) rows mask := by
            simp only [he, Bool.and_true]
        _ = mask := zipWith_snd rows mask hlen
    rw [h1, h2]
  | cons kv rest ih =>
    intro rows mask hlen
    rw [List.foldl_cons]
    cases hk : colIdx cols kv.1 with
    | none =>
      have hstep : condStep cols (rows, mask) kv = (rows, mask) := by
        rw [condStep, hk]
      rw [hstep, ih rows mask hlen]
      have h1 : stringifyCols cols (kv :: rest) = stringifyCols cols rest := by
        funext r
        rw [stringifyCols, List.foldl_cons]
        simp only [hk]
        rfl
      have h2 : (fun (r : List Value) (m : Bool) => m && condHolds cols (kv :: rest) r) =
          (fun (r : List Value) (m : Bool) => m && condHolds cols rest r) := by
        funext r m
        rw [condHolds]
        simp only [hk, Bool.true_and]
      rw [h1, h2]
    | some j =>
      have hstep : condStep cols (rows, mask) kv =
          (rows.map (stringifyAt j),
           List.zipWith (fun r m => m && (astypeStr (r.getD j VNull) == pyStr kv.2))
             (rows.map (stringifyAt j)) mask) := by
        rw [condStep, hk]
      rw [hstep]
      rw [zipWith_map_first]
      have hlen2 : (List.zipWith
            (fun r m => m && (astypeStr ((stringifyAt j r).getD j VNull) == pyStr kv.2))
            rows mask).length = (rows.map (stringifyAt j)).length := by
        rw [List.length_zipWith, List.length_map]
        omega
      rw [ih (rows.map (stringifyAt j)) _ hlen2]
      rw [List.map_map]
      rw [zipWith_map_first]
      rw [zipWith_fusion]
      have h1 : (stringifyCols cols rest) ∘ (stringifyAt j) =
          stringifyCols cols (kv :: rest) := by
        funext r
        show stringifyCols cols rest (stringifyAt j r) = stringifyCols cols (kv :: rest) r
        conv_rhs => rw [stringifyCols, List.foldl_cons]
        simp only [hk]
        rfl
      have h2 : (fun (r : List Value) (m : Bool) =>
            (fun (r2 : List Value) (m2 : Bool) => m2 && condHolds cols rest r2)
              (stringifyAt j r)
              ((fun (r2 : List Value) (m2 : Bool) =>
                m2 && (astypeStr ((stringifyAt j r2).getD j VNull) == pyStr kv.2)) r m)) =
          (fun (r : List Value) (m : Bool) => m && condHolds cols (kv :: rest) r) := by
        funext r m
        show ((m && (astypeStr ((stringifyAt j r).getD j VNull) == pyStr kv.2)) &&
            condHolds cols rest (stringifyAt j r)) =
          (m && condHolds cols (kv :: rest) r)
        rw [astypeStr_stringifyAt j j r, condHolds_stringifyAt cols rest j r]
        rw [condHolds]
        simp only [hk]
        rw [Bool.and_assoc]
      rw [h1, h2]

theorem zipWith_mask_init (P : List Value → Bool) (rows : List (List Value)) :
    List.zipWith (fun r m => m && P r) rows (rows.map (fun _ => true)) = rows.map P := by
  induction rows with
  | nil => rfl
  | cons r rs ih =>
    simp only [List.map_cons, List.zipWith_cons_cons, Bool.true_and]
    rw [ih]

theorem zip_filter_map_helper (σ : List Value → List Value) (P : List Value → Bool)
    (g : List Value → Rcd) (rows : List (List Value)) :
    ((List.zip (rows.map σ) (rows.map P)).filter (fun rm => rm.2)).map (fun rm => g rm.1) =
      (rows.filter P).map (fun r => g (σ r)) := by
  induction rows with
  | nil => rfl
  | cons r rs ih =>
    simp only [List.map_cons, List.zip_cons_cons, List.filter_cons]
    by_cases hp : P r
    · rw [if_pos (by simpa using hp), if_pos hp]
      simp only [List.map_cons]
      rw [ih]
    · rw [if_neg (by simpa using hp), if_neg hp]
      exact ih

/-- C1 counterexample: the claim requires a row to satisfy string
equality for every condition key, keys naming absent columns included —
here the single key b names no column of the table, so the claim demands
the empty result — but find_all skips such keys and returns the row. -/
theorem c1_find_all_absent_key_cex :
    find_all (some (Frame.mk ["a"] [[VStr "x"]])) [("b", VStr "y")] = [[("a", VStr "x")]] ∧
    (Frame.mk ["a"] [[VStr "x"]]).rows.filter
      (fun r => claimC1Holds ["a"] [("b", VStr "y")] r) = [] := by
  refine ⟨by decide, by decide⟩

/-- C1 amended: find_all returns exactly the rows, in file order, that
satisfy conjunctive string equality on every condition key naming a
present column — condition keys naming columns absent from the table are
ignored rather than failing the row — and the returned records carry the
condition's present columns in their astype(str) string form. -/
theorem c1_find_all_amended (f : Frame) (cond : Rcd) (hwf : f.cols = [] → f.rows = []) :
    find_all none cond = [] ∧
    find_all (some f) cond =
      (f.rows.filter (fun r => condHolds f.cols cond r)).map
        (fun r => rowRecord f.cols (stringifyCols f.cols cond r)) := by
  refine ⟨rfl, ?_⟩
  rw [find_all]
  by_cases hempty : (f.rows.isEmpty || f.cols.isEmpty) = true
  · rw [if_pos hempty]
    have hrows : f.rows = [] := by
      rcases Bool.or_eq_true_iff.mp hempty with h | h
      · exact List.isEmpty_iff.mp h
      · exact hwf (List.isEmpty_iff.mp h)
    rw [hrows]
    rfl
  · rw [if_neg hempty]
    rw [condFold_closed f.cols cond f.rows (f.rows.map (fun _ => true)) (by simp)]
    dsimp only
    rw [zipWith_mask_init]
    exact zip_filter_map_helper (stringifyCols f.cols cond) (condHolds f.cols cond)
      (rowRecord f.cols) f.rows

/-- Witness for C1 on a two-row table with one matching row and a
condition key naming an absent column. -/
theorem c1_find_all_amended_witness :
    find_all (some (Frame.mk ["a"] [[VStr "x"], [VStr "y"]]))
        [("a", VStr "x"), ("zz", VStr "q")] =
      ((Frame.mk ["a"] [[VStr "x"], [VStr "y"]]).rows.filter
        (fun r => condHolds ["a"] [("a", VStr "x"), ("zz", VStr "q")] r)).map
        (fun r => rowRecord ["a"]
          (stringifyCols ["a"] [("a", VStr "x"), ("zz", VStr "q")] r)) :=
  (c1_find_all_amended (Frame.mk ["a"] [[VStr "x"], [VStr "y"]])
    [("a", VStr "x"), ("zz", VStr "q")] (by intro h; simp at h)).2

theorem incStep_any (k : Int) (tid : Bool) :
    incStep (some (Frame.mk ["id", "count"] [[VStr "U1", VInt k]])) tid =
      some (Frame.mk ["id", "count"] [[VStr "U1", VInt (k + 1)]]) := rfl

theorem incStep_fold (sched : List Bool) : ∀ k : Int,
    sched.foldl incStep (some (Frame.mk ["id", "count"] [[VStr "U1", VInt k]])) =
      some (Frame.mk ["id", "count"] [[VStr "U1", VInt (k + sched.length)]]) := by
  induction sched with
  | nil => intro k; simp
  | cons b bs ih =>
    intro k
    rw [List.foldl_cons, incStep_any k b, ih (k + 1)]
    have harith : k + 1 + (bs.length : Int) = k + ((bs.length + 1 : Nat) : Int) := by
      push_cast
      ring
    rw [harith]
    rfl

/-- C9: under any interleaving of two threads each running 100
increment_field calls of amount one against row U1's count field —
modelled as an arbitrary schedule of 200 atomic steps, each step atomic
because the operation runs its whole read-add-write inside the table's
reentrant lock — the final stored value is exactly 200: no increment is
lost. -/
theorem c9_no_lost_updates (sched : List Bool)
    (h1 : sched.count true = 100) (h2 : sched.count false = 100) :
    sched.foldl incStep (some (Frame.mk ["id", "count"] [[VStr "U1", VInt 0]])) =
      some (Frame.mk ["id", "count"] [[VStr "U1", VInt 200]]) := by
  have hlen : sched.length = 200 := by
    have := count_true_add_count_false sched
    omega
  rw [incStep_fold sched 0, hlen]
  norm_num

/-- Witness for C9 at the schedule running thread A's 100 steps then
thread B's 100 steps. -/
theorem c9_no_lost_updates_witness :
    (List.replicate 100 true ++ List.replicate 100 false).count true = 100 ∧
    (List.replicate 100 true ++ List.replicate 100 false).count false = 100 ∧
    (List.replicate 100 true ++ List.replicate 100 false).foldl incStep
        (some (Frame.mk ["id", "count"] [[VStr "U1", VInt 0]])) =
      some (Frame.mk ["id", "count"] [[VStr "U1", VInt 200]]) :=
  ⟨by decide, by decide,
    c9_no_lost_updates (List.replicate 100 true ++ List.replicate 100 false)
      (by decide) (by decide)⟩

theorem contains_true_of_mem (l : List Bool) (h : true ∈ l) : l.contains true = true := by
  induction l with
  | nil => simp at h
  | cons b bs ih =>
    cases b with
    | true => rfl
    | false =>
      have hbs : true ∈ bs := by
        rcases List.mem_cons.mp h with h1 | h1
        · exact absurd h1 (by simp)
        · exact h1
      exact ih hbs

theorem contains_true_eq_false (l : List Bool) (h : ∀ b ∈ l, b = false) :
    l.contains true = false := by
  induction l with
  | nil => rfl
  | cons b bs ih =>
    have hb : b = false := h b (List.mem_cons_self b bs)
    subst hb
    exact ih (fun b2 hb2 => h b2 (List.mem_cons_of_mem false hb2))

/-- C4 counterexample: the row with id A matches, but the field to
increment names no existing column, so reading the current value raises
KeyError into the catch-all and the call returns false with the table
unchanged — the claim says it should succeed and set the field to the
amount. -/
theorem c4_increment_missing_field_cex :
    increment_field (some (Frame.mk ["id"] [[VStr "A"]])) (VStr "A") "id" "score" 5 =
      (false, some (Frame.mk ["id"] [[VStr "A"]])) := by decide

/-- C4 amended: when the table has a row whose id column string-matches
the probe and the field names an existing column whose current cell on
the first matched row is null or parses as an integer, increment_field
succeeds and sets the field on every matched row to that current value
(null read as zero, so a null cell yields exactly the amount) plus the
amount. -/
theorem c4_increment_field_amended (f : Frame) (idv : Value) (idc fld : String)
    (amount : Int) (j k : Nat) (r0 : List Value) (c : Int)
    (hrect : ∀ r ∈ f.rows, r.length = f.cols.length)
    (hj : colIdx f.cols idc = some j)
    (hk : colIdx f.cols fld = some k)
    (hfind : (f.rows.map (stringifyAt j)).find?
        (fun r => astypeStr (r.getD j VNull) == pyStr idv) = some r0)
    (hc : currentAsInt (r0.getD k VNull) = some c) :
    (∃ f2 : Frame, increment_field (some f) idv idc fld amount = (true, some f2) ∧
      f2.cols = f.cols ∧ f2.rows.length = f.rows.length ∧
      (∀ i, i < f.rows.length → rowMatches f.cols idc idv (f.rows.getD i []) = true →
        lookupCell f2.cols (f2.rows.getD i []) fld = some (VInt (c + amount)))) ∧
    (r0.getD k VNull = VNull → c = 0) := by
  have hpred : (astypeStr (r0.getD j VNull) == pyStr idv) = true := by
    have hp0 := List.find?_some hfind
    simpa using hp0
  have hmem : r0 ∈ f.rows.map (stringifyAt j) := List.mem_of_find?_eq_some hfind
  have hcont : (((f.rows.map (stringifyAt j)).map
      (fun r => astypeStr (r.getD j VNull) == pyStr idv)).contains true) = true :=
    contains_true_of_mem _ (List.mem_map.mpr ⟨r0, hmem, hpred⟩)
  have heq : increment_field (some f) idv idc fld amount =
      (true, some (Frame.mk f.cols (List.zipWith
        (fun r m => if m then setCell k (VInt (c + amount)) r else r)
        (f.rows.map (stringifyAt j))
        ((f.rows.map (stringifyAt j)).map
          (fun r => astypeStr (r.getD j VNull) == pyStr idv))))) := by
    rw [increment_field, hj]
    dsimp only
    rw [if_pos hcont, hk]
    dsimp only
    rw [hfind]
    dsimp only
    rw [hc]
  refine ⟨⟨Frame.mk f.cols (List.zipWith
      (fun r m => if m then setCell k (VInt (c + amount)) r else r)
      (f.rows.map (stringifyAt j))
      ((f.rows.map (stringifyAt j)).map
        (fun r => astypeStr (r.getD j VNull) == pyStr idv))),
    heq, rfl, ?_, ?_⟩, ?_⟩
  · simp [List.length_zipWith]
  · intro i hi hrm
    simp only [rowMatches, hj] at hrm
    have hstr : (f.rows.map (stringifyAt j)).getD i [] = stringifyAt j (f.rows.getD i []) :=
      map_getD (stringifyAt j) f.rows i hi
    have hmaskd : (((f.rows.map (stringifyAt j)).map
        (fun r => astypeStr (r.getD j VNull) == pyStr idv)).getD i false) =
        (astypeStr (((f.rows.map (stringifyAt j)).getD i []).getD j VNull) == pyStr idv) :=
      mapBool_getD _ _ i (by simpa using hi)
    have hrowd : (List.zipWith
        (fun r m => if m then setCell k (VInt (c + amount)) r else r)
        (f.rows.map (stringifyAt j))
        ((f.rows.map (stringifyAt j)).map
          (fun r => astypeStr (r.getD j VNull) == pyStr idv))).getD i [] =
        (if (((f.rows.map (stringifyAt j)).map
            (fun r => astypeStr (r.getD j VNull) == pyStr idv)).getD i false) then
          setCell k (VInt (c + amount)) ((f.rows.map (stringifyAt j)).getD i [])
        else ((f.rows.map (stringifyAt j)).getD i [])) :=
      zipWith_getD _ _ _ i [] false [] (by simp) (by simpa using hi)
    rw [hrowd, hmaskd, hstr, astypeStr_stringifyAt j j (f.rows.getD i []), hrm]
    rw [if_pos rfl]
    rw [lookupCell, hk]
    have hrlen : (f.rows.getD i []).length = f.cols.length := by
      have hmemr : f.rows.getD i [] ∈ f.rows := by
        rw [List.getD_eq_getElem f.rows [] hi]
        exact List.getElem_mem hi
      exact hrect _ hmemr
    have hklen : k < (stringifyAt j (f.rows.getD i [])).length := by
      rw [stringifyAt_length, hrlen]
      exact colIdx_lt_length f.cols fld k hk
    rw [Option.map_some']
    rw [setCell, getD_setAtMap_self k _ _ hklen]
  · intro hnull
    rw [hnull] at hc
    have : (0 : Int) = c := by
      have h2 : (some 0 : Option Int) = some c := hc
      injection h2
    exact this.symm

/-- Witness for C4 on a row whose count cell is null: the increment
succeeds and writes exactly the amount. -/
theorem c4_increment_field_amended_witness :
    (∃ f2 : Frame,
      increment_field (some (Frame.mk ["id", "count"] [[VStr "A", VNull]]))
          (VStr "A") "id" "count" 5 = (true, some f2) ∧
      f2.cols = ["id", "count"] ∧
      f2.rows.length = (Frame.mk ["id", "count"] [[VStr "A", VNull]]).rows.length ∧
      (∀ i, i < (Frame.mk ["id", "count"] [[VStr "A", VNull]]).rows.length →
        rowMatches ["id", "count"] "id" (VStr "A")
          ((Frame.mk ["id", "count"] [[VStr "A", VNull]]).rows.getD i []) = true →
        lookupCell f2.cols (f2.rows.getD i []) "count" = some (VInt (0 + 5)))) ∧
    (([VStr "A", VStr "A"].getD 1 VNull = VNull → (0 : Int) = 0) ∨ True) := by
  refine ⟨?_, Or.inr trivial⟩
  exact (c4_increment_field_amended (Frame.mk ["id", "count"] [[VStr "A", VNull]])
    (VStr "A") "id" "count" 5 0 1 [VStr "A", VNull] 0
    (by decide) (by decide) (by decide) (by decide) (by decide)).1

theorem padRow_eq_self (r : List Value) (n : Nat) (h : r.length = n) : padRow r n = r := by
  rw [padRow, h, Nat.sub_self]
  simp

theorem contains_iff_mem (l : List String) (a : String) : l.contains a = true ↔ a ∈ l := by
  induction l with
  | nil => simp
  | cons b bs ih => simp [List.contains_cons, ih]

theorem contains_append_single (cols : List String) (a b : String) (hne : a ≠ b) :
    (cols ++ [b]).contains a = cols.contains a := by
  cases hc : cols.contains a with
  | true =>
    have : a ∈ cols := (contains_iff_mem cols a).mp hc
    exact (contains_iff_mem _ a).mpr (List.mem_append_left [b] this)
  | false =>
    cases hc2 : (cols ++ [b]).contains a with
    | false => rfl
    | true =>
      have : a ∈ cols ++ [b] := (contains_iff_mem _ a).mp hc2
      rcases List.mem_append.mp this with h1 | h1
      · rw [← hc]
        exact ((contains_iff_mem cols a).mpr h1).symm ▸ rfl
      · simp at h1
        exact absurd h1 hne

theorem colIdx_single_self (a : String) : colIdx [a] a = some 0 := by
  simp [colIdx]

theorem contains_of_colIdx_some (cols : List String) (k : String) (j : Nat)
    (h : colIdx cols k = some j) : cols.contains k = true := by
  apply (contains_iff_mem cols k).mpr
  have hlt := colIdx_lt_length cols k j h
  have := colIdx_getD cols k j h
  rw [List.getD_eq_getElem cols "" hlt] at this
  rw [← this]
  exact List.getElem_mem hlt

theorem colIdx_none_of_contains_false (cols : List String) (k : String)
    (h : cols.contains k = false) : colIdx cols k = none := by
  apply (colIdx_eq_none_iff cols k).mpr
  intro hmem
  rw [(contains_iff_mem cols k).mpr hmem] at h
  exact absurd h (by simp)

theorem applyUpdate_rows_length (cols : List String) (rows : List (List Value))
    (mask : List Bool) (k : String) (val : Value) :
    (applyUpdate cols rows mask k val).2.length = min rows.length mask.length := by
  rw [applyUpdate]
  cases colIdx cols k with
  | none => simp [List.length_zipWith]
  | some j => simp [List.length_zipWith]

theorem applyUpdate_rect (cols : List String) (rows : List (List Value))
    (mask : List Bool) (k : String) (val : Value)
    (hlen : rows.length = mask.length)
    (hrect : ∀ i, i < rows.length → (rows.getD i []).length = cols.length) :
    ∀ i, i < rows.length →
      (((applyUpdate cols rows mask k val).2.getD i []).length =
        (applyUpdate cols rows mask k val).1.length) := by
  intro i hi
  rw [applyUpdate]
  cases colIdx cols k with
  | some j =>
    dsimp only
    rw [zipWith_getD _ rows mask i [] false [] hlen hi]
    cases mask.getD i false with
    | true =>
      rw [if_pos rfl, setCell, setAtMap_length]
      exact hrect i hi
    | false =>
      rw [if_neg (by simp)]
      exact hrect i hi
  | none =>
    dsimp only
    rw [zipWith_getD _ rows mask i [] false [] hlen hi]
    rw [padRow_eq_self _ _ (hrect i hi)]
    rw [List.length_append, List.length_append, hrect i hi]
    rfl

theorem applyUpdate_lookup_pres (cols : List String) (rows : List (List Value))
    (mask : List Bool) (k : String) (val : Value) (c : String) (hck : c ≠ k)
    (hlen : rows.length = mask.length)
    (hrect : ∀ i, i < rows.length → (rows.getD i []).length = cols.length)
    (i : Nat) (hi : i < rows.length) :
    lookupCell (applyUpdate cols rows mask k val).1
        ((applyUpdate cols rows mask k val).2.getD i []) c =
      lookupCell cols (rows.getD i []) c := by
  rw [applyUpdate]
  cases hkc : colIdx cols k with
  | some jk =>
    dsimp only
    rw [zipWith_getD _ rows mask i [] false [] hlen hi]
    cases hcc : colIdx cols c with
    | none =>
      rw [lookupCell, lookupCell, hcc]
      rfl
    | some jc =>
      have hne : jc ≠ jk := by
        intro he
        apply hck
        have h1 := colIdx_getD cols c jc hcc
        have h2 := colIdx_getD cols k jk hkc
        rw [← h1, ← h2, he]
      rw [lookupCell, lookupCell, hcc]
      cases mask.getD i false with
      | true =>
        rw [if_pos rfl, Option.map_some', Option.map_some', setCell,
          getD_setAtMap_ne jk jc _ _ hne]
      | false => rw [if_neg (by simp)]
  | none =>
    dsimp only
    rw [zipWith_getD _ rows mask i [] false [] hlen hi]
    rw [padRow_eq_self _ _ (hrect i hi)]
    cases hcc : colIdx cols c with
    | some jc =>
      rw [lookupCell, lookupCell, hcc, colIdx_append_some cols [k] c jc hcc]
      rw [Option.map_some', Option.map_some']
      have hjc : jc < (rows.getD i []).length := by
        rw [hrect i hi]
        exact colIdx_lt_length cols c jc hcc
      rw [getD_append_lt _ _ jc hjc]
    | none =>
      rw [lookupCell, lookupCell, hcc, colIdx_append_of_none cols [k] c hcc]
      have : colIdx [k] c = none := by
        rw [colIdx]
        rw [if_neg (fun h => hck h.symm)]
        rfl
      rw [this]
      rfl

theorem applyUpdateFold_lookup_pres (updates : Rcd) :
    ∀ (cols : List String) (rows : List (List Value)) (mask : List Bool) (c : String),
    rows.length = mask.length →
    (∀ i, i < rows.length → (rows.getD i []).length = cols.length) →
    (∀ kv ∈ updates, kv.1 ≠ c) →
    ∀ i, i < rows.length →
    lookupCell (applyUpdateFold updates cols rows mask).1
        ((applyUpdateFold updates cols rows mask).2.getD i []) c =
      lookupCell cols (rows.getD i []) c := by
  induction updates with
  | nil => intro cols rows mask c hlen hrect hkeys i hi; rfl
  | cons kv rest ih =>
    intro cols rows mask c hlen hrect hkeys i hi
    have hstep : applyUpdateFold (kv :: rest) cols rows mask =
        applyUpdateFold rest (applyUpdate cols rows mask kv.1 kv.2).1
          (applyUpdate cols rows mask kv.1 kv.2).2 mask := rfl
    rw [hstep]
    have hlen1 : (applyUpdate cols rows mask kv.1 kv.2).2.length = rows.length := by
      rw [applyUpdate_rows_length, hlen]
      exact Nat.min_self mask.length
    have hlen1m : (applyUpdate cols rows mask kv.1 kv.2).2.length = mask.length := by
      rw [hlen1, hlen]
    have hrect1 : ∀ i2, i2 < (applyUpdate cols rows mask kv.1 kv.2).2.length →
        (((applyUpdate cols rows mask kv.1 kv.2).2.getD i2 []).length =
          (applyUpdate cols rows mask kv.1 kv.2).1.length) := by
      intro i2 hi2
      rw [hlen1] at hi2
      exact applyUpdate_rect cols rows mask kv.1 kv.2 hlen hrect i2 hi2
    have hkeys1 : ∀ kv2 ∈ rest, kv2.1 ≠ c :=
      fun kv2 hkv2 => hkeys kv2 (List.mem_cons_of_mem kv hkv2)
    have hi1 : i < (applyUpdate cols rows mask kv.1 kv.2).2.length := by
      rw [hlen1]
      exact hi
    rw [ih (applyUpdate cols rows mask kv.1 kv.2).1
      (applyUpdate cols rows mask kv.1 kv.2).2 mask c hlen1m hrect1 hkeys1 i hi1]
    exact applyUpdate_lookup_pres cols rows mask kv.1 kv.2 c
      (fun h => hkeys kv (List.mem_cons_self kv rest) h.symm) hlen hrect i hi

theorem applyUpdate_cols_some (cols : List String) (rows : List (List Value))
    (mask : List Bool) (k : String) (val : Value) (jk : Nat)
    (hkc : colIdx cols k = some jk) :
    (applyUpdate cols rows mask k val).1 = cols := by
  rw [applyUpdate, hkc]

theorem applyUpdate_cols_none (cols : List String) (rows : List (List Value))
    (mask : List Bool) (k : String) (val : Value)
    (hkc : colIdx cols k = none) :
    (applyUpdate cols rows mask k val).1 = cols ++ [k] := by
  rw [applyUpdate, hkc]

theorem applyUpdate_lookup_self_present (cols : List String) (rows : List (List Value))
    (mask : List Bool) (k : String) (val : Value) (jk : Nat)
    (hkc : colIdx cols k = some jk)
    (hlen : rows.length = mask.length)
    (hrect : ∀ i, i < rows.length → (rows.getD i []).length = cols.length)
    (i : Nat) (hi : i < rows.length) (hmi : mask.getD i false = true) :
    lookupCell (applyUpdate cols rows mask k val).1
        ((applyUpdate cols rows mask k val).2.getD i []) k = some val := by
  rw [applyUpdate, hkc]
  dsimp only
  rw [zipWith_getD _ rows mask i [] false [] hlen hi, hmi, if_pos rfl]
  rw [lookupCell, hkc, Option.map_some']
  have hjk : jk < (rows.getD i []).length := by
    rw [hrect i hi]
    exact colIdx_lt_length cols k jk hkc
  rw [setCell, getD_setAtMap_self jk _ _ hjk]

theorem applyUpdate_lookup_self_new (cols : List String) (rows : List (List Value))
    (mask : List Bool) (k : String) (val : Value)
    (hkc : colIdx cols k = none)
    (hlen : rows.length = mask.length)
    (hrect : ∀ i, i < rows.length → (rows.getD i []).length = cols.length)
    (i : Nat) (hi : i < rows.length) :
    lookupCell (applyUpdate cols rows mask k val).1
        ((applyUpdate cols rows mask k val).2.getD i []) k =
      some (if mask.getD i false then val else VNull) := by
  rw [applyUpdate, hkc]
  dsimp only
  rw [zipWith_getD _ rows mask i [] false [] hlen hi]
  rw [padRow_eq_self _ _ (hrect i hi)]
  have hidx : colIdx (cols ++ [k]) k = some cols.length := by
    rw [colIdx_append_of_none cols [k] k hkc, colIdx_single_self, Option.map_some']
    rw [Nat.zero_add]
  rw [lookupCell, hidx, Option.map_some']
  rw [← hrect i hi, getD_append_length]

theorem applyUpdateFold_spec (updates : Rcd) :
    ∀ (cols : List String) (rows : List (List Value)) (mask : List Bool),
    rows.length = mask.length →
    (∀ i, i < rows.length → (rows.getD i []).length = cols.length) →
    (updates.map Prod.fst).Nodup →
    ((applyUpdateFold updates cols rows mask).1 =
        cols ++ (updates.map Prod.fst).filter (fun k => !(cols.contains k))) ∧
    ((applyUpdateFold updates cols rows mask).2.length = rows.length) ∧
    (∀ i, i < rows.length → ∀ kv ∈ updates,
      (mask.getD i false = true →
        lookupCell (applyUpdateFold updates cols rows mask).1
          ((applyUpdateFold updates cols rows mask).2.getD i []) kv.1 = some kv.2) ∧
      (mask.getD i false = false → cols.contains kv.1 = false →
        lookupCell (applyUpdateFold updates cols rows mask).1
          ((applyUpdateFold updates cols rows mask).2.getD i []) kv.1 = some VNull)) := by
  induction updates with
  | nil =>
    intro cols rows mask hlen hrect hnd
    refine ⟨by simp [applyUpdateFold], rfl, ?_⟩
    intro i hi kv hkv
    exact absurd hkv (List.not_mem_nil kv)
  | cons kv rest ih =>
    intro cols rows mask hlen hrect hnd
    rw [List.map_cons] at hnd
    obtain ⟨hnotin, hndrest⟩ := List.nodup_cons.mp hnd
    have hstepeq : applyUpdateFold (kv :: rest) cols rows mask =
        applyUpdateFold rest (applyUpdate cols rows mask kv.1 kv.2).1
          (applyUpdate cols rows mask kv.1 kv.2).2 mask := rfl
    have hlen1 : (applyUpdate cols rows mask kv.1 kv.2).2.length = rows.length := by
      rw [applyUpdate_rows_length, hlen]
      exact Nat.min_self mask.length
    have hlen1m : (applyUpdate cols rows mask kv.1 kv.2).2.length = mask.length := by
      rw [hlen1, hlen]
    have hrect1 : ∀ i2, i2 < (applyUpdate cols rows mask kv.1 kv.2).2.length →
        (((applyUpdate cols rows mask kv.1 kv.2).2.getD i2 []).length =
          (applyUpdate cols rows mask kv.1 kv.2).1.length) := by
      intro i2 hi2
      rw [hlen1] at hi2
      exact applyUpdate_rect cols rows mask kv.1 kv.2 hlen hrect i2 hi2
    obtain ⟨ih1, ih2, ih3⟩ := ih (applyUpdate cols rows mask kv.1 kv.2).1
      (applyUpdate cols rows mask kv.1 kv.2).2 mask hlen1m hrect1 hndrest
    have hkeysne : ∀ kv2 ∈ rest, kv2.1 ≠ kv.1 := by
      intro kv2 hkv2 he
      exact hnotin (he ▸ List.mem_map_of_mem Prod.fst hkv2)
    cases hkc : colIdx cols kv.1 with
    | some jk =>
      have hA1 : (applyUpdate cols rows mask kv.1 kv.2).1 = cols :=
        applyUpdate_cols_some cols rows mask kv.1 kv.2 jk hkc
      have hcontains : cols.contains kv.1 = true :=
        contains_of_colIdx_some cols kv.1 jk hkc
      refine ⟨?_, ?_, ?_⟩
      · rw [hstepeq, ih1, hA1]
        rw [List.map_cons, List.filter_cons]
        rw [hcontains]
        simp
      · rw [hstepeq, ih2, hlen1]
      · intro i hi kv2 hkv2
        have hi1 : i < (applyUpdate cols rows mask kv.1 kv.2).2.length := by
          rw [hlen1]
          exact hi
        rcases List.mem_cons.mp hkv2 with hkveq | hkvmem
        · subst hkveq
          constructor
          · intro hmi
            rw [hstepeq]
            rw [applyUpdateFold_lookup_pres rest _ _ mask kv2.1 hlen1m hrect1 hkeysne i hi1]
            exact applyUpdate_lookup_self_present cols rows mask kv2.1 kv2.2 jk hkc
              hlen hrect i hi hmi
          · intro hmi hcont
            rw [hcontains] at hcont
            exact absurd hcont (by simp)
        · have hres := ih3 i hi1 kv2 hkvmem
          refine ⟨fun hmi => ?_, fun hmi hcont => ?_⟩
          · rw [hstepeq]
            exact hres.1 hmi
          · rw [hstepeq]
            apply hres.2 hmi
            rw [hA1]
            exact hcont
    | none =>
      have hA1 : (applyUpdate cols rows mask kv.1 kv.2).1 = cols ++ [kv.1] :=
        applyUpdate_cols_none cols rows mask kv.1 kv.2 hkc
      have hcontains : cols.contains kv.1 = false := by
        cases hcf : cols.contains kv.1 with
        | false => rfl
        | true =>
          exact absurd ((contains_iff_mem _ _).mp hcf) ((colIdx_eq_none_iff _ _).mp hkc)
      refine ⟨?_, ?_, ?_⟩
      · rw [hstepeq, ih1, hA1]
        have hfc : (rest.map Prod.fst).filter (fun k2 => !((cols ++ [kv.1]).contains k2)) =
            (rest.map Prod.fst).filter (fun k2 => !(cols.contains k2)) := by
          apply filter_congr_own
          intro k2 hk2
          have hne : k2 ≠ kv.1 := fun he => hnotin (he ▸ hk2)
          rw [contains_append_single cols k2 kv.1 hne]
        rw [hfc]
        rw [List.map_cons, List.filter_cons]
        rw [hcontains]
        rw [if_pos (show (!false) = true from rfl)]
        rw [List.append_assoc]
        rfl
      · rw [hstepeq, ih2, hlen1]
      · intro i hi kv2 hkv2
        have hi1 : i < (applyUpdate cols rows mask kv.1 kv.2).2.length := by
          rw [hlen1]
          exact hi
        rcases List.mem_cons.mp hkv2 with hkveq | hkvmem
        · subst hkveq
          constructor
          · intro hmi
            rw [hstepeq]
            rw [applyUpdateFold_lookup_pres rest _ _ mask kv2.1 hlen1m hrect1 hkeysne i hi1]
            rw [applyUpdate_lookup_self_new cols rows mask kv2.1 kv2.2 hkc hlen hrect i hi]
            rw [hmi]
            rfl
          · intro hmi hcont
            rw [hstepeq]
            rw [applyUpdateFold_lookup_pres rest _ _ mask kv2.1 hlen1m hrect1 hkeysne i hi1]
            rw [applyUpdate_lookup_self_new cols rows mask kv2.1 kv2.2 hkc hlen hrect i hi]
            rw [hmi]
            rfl
        · have hres := ih3 i hi1 kv2 hkvmem
          refine ⟨fun hmi => ?_, fun hmi hcont => ?_⟩
          · rw [hstepeq]
            exact hres.1 hmi
          · rw [hstepeq]
            apply hres.2 hmi
            rw [hA1]
            have hne : kv2.1 ≠ kv.1 := hkeysne kv2 hkvmem
            rw [contains_append_single cols kv2.1 kv.1 hne]
            exact hcont

/-- C3: update_by_id applies every key of updates to all rows whose id
column string-matches the probe, not just the first; a key naming a
previously unseen column is added to the schema (after the existing
columns, in update order) with every non-matched row backfilled to null;
and it returns false, leaving the table unchanged, when no row matched —
the file or the id column missing included. -/
theorem c3_update_by_id_spec (f : Frame) (idv : Value) (updates : Rcd) (idc : String)
    (hrect : ∀ r ∈ f.rows, r.length = f.cols.length)
    (hnd : (updates.map Prod.fst).Nodup) :
    update_by_id none idv updates idc = (false, none) ∧
    ((∀ r ∈ f.rows, rowMatches f.cols idc idv r = false) →
      update_by_id (some f) idv updates idc = (false, some f)) ∧
    (∀ r0 ∈ f.rows, rowMatches f.cols idc idv r0 = true →
      ∃ f2 : Frame, update_by_id (some f) idv updates idc = (true, some f2) ∧
        f2.cols = f.cols ++ (updates.map Prod.fst).filter (fun k => !(f.cols.contains k)) ∧
        f2.rows.length = f.rows.length ∧
        (∀ i, i < f.rows.length → ∀ kv ∈ updates,
          (rowMatches f.cols idc idv (f.rows.getD i []) = true →
            lookupCell f2.cols (f2.rows.getD i []) kv.1 = some kv.2) ∧
          (rowMatches f.cols idc idv (f.rows.getD i []) = false →
            f.cols.contains kv.1 = false →
            lookupCell f2.cols (f2.rows.getD i []) kv.1 = some VNull))) := by
  refine ⟨rfl, ?_, ?_⟩
  · intro hnone
    rw [update_by_id]
    cases hj : colIdx f.cols idc with
    | none => rfl
    | some j =>
      dsimp only
      have hcf : (((f.rows.map (stringifyAt j)).map
          (fun r => astypeStr (r.getD j VNull) == pyStr idv)).contains true) = false := by
        apply contains_true_eq_false
        intro b hb
        obtain ⟨r1, hr1, hr1eq⟩ := List.mem_map.mp hb
        obtain ⟨r2, hr2, hr2eq⟩ := List.mem_map.mp hr1
        have hm2 : rowMatches f.cols idc idv r2 = false := hnone r2 hr2
        simp only [rowMatches, hj] at hm2
        rw [← hr1eq, ← hr2eq, astypeStr_stringifyAt j j r2, hm2]
      rw [hcf]
      rfl
  · intro r0 hr0 hr0m
    cases hj : colIdx f.cols idc with
    | none =>
      simp only [rowMatches, hj] at hr0m
      exact absurd hr0m (by simp)
    | some j =>
      have hpred0 : (astypeStr ((stringifyAt j r0).getD j VNull) == pyStr idv) = true := by
        rw [astypeStr_stringifyAt j j r0]
        simp only [rowMatches, hj] at hr0m
        exact hr0m
      have hcont : (((f.rows.map (stringifyAt j)).map
          (fun r => astypeStr (r.getD j VNull) == pyStr idv)).contains true) = true :=
        contains_true_of_mem _ (List.mem_map.mpr
          ⟨stringifyAt j r0, List.mem_map_of_mem (stringifyAt j) hr0, hpred0⟩)
      have hlenSR : (f.rows.map (stringifyAt j)).length =
          ((f.rows.map (stringifyAt j)).map
            (fun r => astypeStr (r.getD j VNull) == pyStr idv)).length := by
        simp
      have hrectSR : ∀ i, i < (f.rows.map (stringifyAt j)).length →
          (((f.rows.map (stringifyAt j)).getD i []).length = f.cols.length) := by
        intro i hi
        have hi2 : i < f.rows.length := by simpa using hi
        rw [map_getD (stringifyAt j) f.rows i hi2, stringifyAt_length]
        apply hrect
        rw [List.getD_eq_getElem f.rows [] hi2]
        exact List.getElem_mem hi2
      obtain ⟨hs1, hs2, hs3⟩ := applyUpdateFold_spec updates f.cols
        (f.rows.map (stringifyAt j))
        ((f.rows.map (stringifyAt j)).map
          (fun r => astypeStr (r.getD j VNull) == pyStr idv))
        hlenSR hrectSR hnd
      have hmaski : ∀ i, i < f.rows.length →
          (((f.rows.map (stringifyAt j)).map
            (fun r => astypeStr (r.getD j VNull) == pyStr idv)).getD i false) =
          rowMatches f.cols idc idv (f.rows.getD i []) := by
        intro i hi
        rw [mapBool_getD _ _ i (by simpa using hi)]
        rw [map_getD (stringifyAt j) f.rows i hi]
        rw [astypeStr_stringifyAt j j]
        simp only [rowMatches, hj]
      refine ⟨Frame.mk
        (applyUpdateFold updates f.cols (f.rows.map (stringifyAt j))
          ((f.rows.map (stringifyAt j)).map
            (fun r => astypeStr (r.getD j VNull) == pyStr idv))).1
        (applyUpdateFold updates f.cols (f.rows.map (stringifyAt j))
          ((f.rows.map (stringifyAt j)).map
            (fun r => astypeStr (r.getD j VNull) == pyStr idv))).2,
        ?_, hs1, ?_, ?_⟩
      · rw [update_by_id, hj]
        dsimp only
        rw [if_pos hcont]
      · rw [hs2]
        simp
      · intro i hi kv2 hkv2
        have hiSR : i < (f.rows.map (stringifyAt j)).length := by simpa using hi
        have hres := hs3 i hiSR kv2 hkv2
        rw [hmaski i hi] at hres
        exact hres

/-- Witness for C3: the schema-widening scenario — rows A and B, update
of row A with a new column extra; row A gets the value and row B reads
back null for extra. -/
theorem c3_update_by_id_spec_witness :
    [VStr "A"] ∈ (Frame.mk ["id"] [[VStr "A"], [VStr "B"]]).rows ∧
    rowMatches ["id"] "id" (VStr "A") [VStr "A"] = true ∧
    (∃ f2 : Frame,
      update_by_id (some (Frame.mk ["id"] [[VStr "A"], [VStr "B"]])) (VStr "A")
        [("extra", VStr "v")] "id" = (true, some f2) ∧
      f2.cols = ["id"] ++ ([("extra", VStr "v")].map Prod.fst).filter
        (fun k => !(List.contains ["id"] k)) ∧
      f2.rows.length = (Frame.mk ["id"] [[VStr "A"], [VStr "B"]]).rows.length ∧
      (∀ i, i < (Frame.mk ["id"] [[VStr "A"], [VStr "B"]]).rows.length →
        ∀ kv ∈ [("extra", VStr "v")],
        (rowMatches ["id"] "id" (VStr "A")
            ((Frame.mk ["id"] [[VStr "A"], [VStr "B"]]).rows.getD i []) = true →
          lookupCell f2.cols (f2.rows.getD i []) kv.1 = some kv.2) ∧
        (rowMatches ["id"] "id" (VStr "A")
            ((Frame.mk ["id"] [[VStr "A"], [VStr "B"]]).rows.getD i []) = false →
          List.contains ["id"] kv.1 = false →
          lookupCell f2.cols (f2.rows.getD i []) kv.1 = some VNull))) :=
  ⟨by decide, by decide,
    (c3_update_by_id_spec (Frame.mk ["id"] [[VStr "A"], [VStr "B"]]) (VStr "A")
      [("extra", VStr "v")] "id" (by decide) (by decide)).2.2
      [VStr "A"] (by decide) (by decide)⟩
